import Mathlib

/-!
Verification development for the ocs-monkey chaos/workload driver.

Shallow embedding of the core of the repository:
* `src/event/event.py`, `src/event/dispatcher.py` — timestamped events and the
  single-threaded dispatcher loop over a priority queue;
* `src/osio.py` — the workload lifecycle state machine persisted in deployment
  annotations (initialize / idle / health / destroy actions);
* `src/failure_ocs.py` — the CephCluster health oracle and the DeletePodType
  fault selector;
* `src/chaos_runner.py` — fault selection, mitigation waiting, and the LIFO
  repair stack of the chaos loop;
* `src/kube.py` — the retrying RPC wrapper `call`.

Wall-clock time is modelled with rationals (Python floats carry times in
seconds since the epoch).  Randomness (`random.expovariate`, `random.random`,
`random.shuffle`) is passed in explicitly: draws become parameters and
shuffles become permutation parameters.  Python dictionary/`None` behavior is
modelled with `Option`; a Python exception that the code itself does not
handle (`KeyError` on a missing annotation, indexing an empty list) is
modelled by an overall `Option` result whose `none` means that crash.
-/

namespace OcsMonkey

/-! ## Event and Dispatcher (src/event/event.py, src/event/dispatcher.py)

An `Ev` carries its scheduled time `when` (Event._when) and its `execute`
body.  `execute` either raises (modelled by `Except.error`, used by the
lifecycle health check's `UnhealthyDeployment`) or returns the list of
follow-on events to enqueue.  The dispatcher's `queue.PriorityQueue` is
modelled as a list from which `get_nowait` removes a minimal-`when` element
(`popMin`; heap tie order is unspecified in the source, the model removes the
first minimal element). -/

/-- `UnhealthyDeployment(namespace, name)` from src/osio.py. -/
structure Unhealthy where
  ns : String
  name : String
deriving Repr, DecidableEq

set_option genSizeOfSpec false in
/-- An event: scheduled time plus execute body (src/event/event.py). -/
inductive Ev where
  | mk (w : ℚ) (body : Unit → Except Unhealthy (List Ev))

/-- `Event.when` — the scheduled time of an event. -/
def Ev.when : Ev → ℚ
  | .mk w _ => w

/-- Run the event's `execute` body. -/
def Ev.run1 : Ev → Except Unhealthy (List Ev)
  | .mk _ body => body ()

/-- `PriorityQueue.get_nowait` on a list-modelled queue: remove an element of
minimal `when` (the first such element), returning it and the rest; `none` on
an empty queue (the `queue.Empty` exit of `Dispatcher.run`). -/
def popMin : List Ev → Option (Ev × List Ev)
  | [] => none
  | e :: rest =>
    match popMin rest with
    | none => some (e, [])
    | some (m, rest2) => if e.when ≤ m.when then some (e, rest) else some (m, e :: rest2)

/-- `Dispatcher.run` (src/event/dispatcher.py lines 51-62), fuel-bounded.
Repeatedly pops the minimal event, runs it to completion, and enqueues its
follow-ons; returns the trace of `when`s of executed events, or the first
exception escaping an event's `execute`.  The sleep until the event's
deadline has no observable effect in this model. -/
def runE : Nat → List Ev → Except Unhealthy (List ℚ)
  | 0, _ => .ok []
  | fuel + 1, q =>
    match popMin q with
    | none => .ok []
    | some (e, rest) =>
      match e.run1 with
      | .error u => .error u
      | .ok followOns => (runE fuel (rest ++ followOns)).map (fun t => e.when :: t)

/-- An event that performs no action and schedules nothing (the shape of
`OneShot` with a pure body, src/event/periodic.py). -/
def pureEv (w : ℚ) : Ev :=
  .mk w (fun _ => .ok [])

theorem popMin_none {l : List Ev} (h : popMin l = none) : l = [] := by
  cases l with
  | nil => rfl
  | cons e rest =>
    simp only [popMin] at h
    rcases hr : popMin rest with _ | p
    · simp [hr] at h
    · rcases p with ⟨m, rest2⟩
      simp only [hr] at h
      split at h <;> simp at h

theorem popMin_perm {l : List Ev} {e : Ev} {rest : List Ev}
    (h : popMin l = some (e, rest)) : (e :: rest).Perm l := by
  induction l generalizing e rest with
  | nil => simp [popMin] at h
  | cons a tail ih =>
    simp only [popMin] at h
    rcases hr : popMin tail with _ | p
    · have htail : tail = [] := popMin_none hr
      simp only [hr] at h
      cases h
      subst htail
      exact List.Perm.refl _
    · rcases p with ⟨m, rest2⟩
      simp only [hr] at h
      split at h
      · cases h
        exact List.Perm.refl _
      · cases h
        have hperm : (e :: rest2).Perm tail := ih hr
        exact (List.Perm.swap a e rest2).trans (List.Perm.cons a hperm)

theorem popMin_min {l : List Ev} {e : Ev} {rest : List Ev}
    (h : popMin l = some (e, rest)) : ∀ x ∈ rest, e.when ≤ x.when := by
  induction l generalizing e rest with
  | nil => simp [popMin] at h
  | cons a tail ih =>
    simp only [popMin] at h
    rcases hr : popMin tail with _ | p
    · simp only [hr] at h
      cases h
      intro x hx
      simp at hx
    · rcases p with ⟨m, rest2⟩
      simp only [hr] at h
      split at h
      · rename_i hle
        cases h
        intro x hx
        have hperm : (m :: rest2).Perm tail := popMin_perm hr
        have hx2 : x ∈ m :: rest2 := hperm.symm.subset hx
        rcases List.mem_cons.mp hx2 with hxm | hxr
        · exact hxm ▸ hle
        · exact le_trans hle (ih hr x hxr)
      · rename_i hle
        cases h
        intro x hx
        rcases List.mem_cons.mp hx with hxa | hxr
        · subst hxa
          exact le_of_not_le hle
        · exact ih hr x hxr

/-- Running the dispatcher over a queue of events that schedule no follow-ons
drains the queue, producing a trace that is a permutation of the queued times
and is sorted ascending. -/
theorem runE_pure (fuel : Nat) :
    ∀ l : List Ev, l.length ≤ fuel → (∀ e ∈ l, e.run1 = Except.ok []) →
    ∃ t, runE fuel l = .ok t ∧ t.Perm (l.map Ev.when) ∧ t.Pairwise (· ≤ ·) := by
  induction fuel with
  | zero =>
    intro l hlen _
    have : l = [] := List.length_eq_zero.mp (Nat.le_zero.mp hlen)
    subst this
    exact ⟨[], rfl, List.Perm.refl _, List.Pairwise.nil⟩
  | succ fuel ih =>
    intro l hlen hpure
    cases hl : popMin l with
    | none =>
      have : l = [] := popMin_none hl
      subst this
      refine ⟨[], ?_, List.Perm.refl _, List.Pairwise.nil⟩
      simp [runE, popMin]
    | some p =>
      rcases p with ⟨e, rest⟩
      have hperm : (e :: rest).Perm l := popMin_perm hl
      have hmem : e ∈ l := hperm.subset (List.mem_cons_self e rest)
      have hrestlen : rest.length ≤ fuel := by
        have := hperm.length_eq
        simp at this
        omega
      have hrestpure : ∀ x ∈ rest, x.run1 = Except.ok [] :=
        fun x hx => hpure x (hperm.subset (List.mem_cons_of_mem e hx))
      obtain ⟨t, ht, htperm, htsorted⟩ := ih rest hrestlen hrestpure
      refine ⟨e.when :: t, ?_, ?_, ?_⟩
      · simp only [runE, hl, hpure e hmem, List.append_nil, ht, Except.map]
      · exact (List.Perm.cons e.when (htperm.trans (List.Perm.refl _))).trans
          (by simpa using hperm.map Ev.when)
      · refine List.Pairwise.cons ?_ htsorted
        intro x hx
        have hx2 : x ∈ rest.map Ev.when := htperm.subset hx
        rcases List.mem_map.mp hx2 with ⟨ev, hev, rfl⟩
        exact popMin_min hl ev hev

/-- C2 — Dispatcher ordering: a set of Actions enqueued with pairwise-distinct
`when` timestamps (and producing no follow-on Actions) is executed by
`Dispatcher.run` in strictly ascending order of `when`, each Action running to
completion before the next (the trace is sequential by construction), and
`run` returns exactly when the queue is empty, having executed every queued
Action once (the trace is a permutation of the enqueued times). -/
theorem dispatcher_executes_in_ascending_order (ws : List ℚ)
    (hdist : ws.Pairwise (· ≠ ·)) :
    ∃ t, runE ws.length (ws.map pureEv) = .ok t ∧ t.Perm ws ∧ t.Pairwise (· < ·) := by
  have hpure : ∀ e ∈ ws.map pureEv, e.run1 = Except.ok [] := by
    intro e he
    rcases List.mem_map.mp he with ⟨w, _, rfl⟩
    rfl
  have hlen : (ws.map pureEv).length ≤ ws.length := by simp
  obtain ⟨t, ht, htperm, htsorted⟩ := runE_pure ws.length (ws.map pureEv) hlen hpure
  have hwhen : (ws.map pureEv).map Ev.when = ws := by
    rw [List.map_map]
    have hcomp : Ev.when ∘ pureEv = id := funext fun w => rfl
    rw [hcomp, List.map_id]
  rw [hwhen] at htperm
  refine ⟨t, ht, htperm, ?_⟩
  have hne : t.Pairwise (· ≠ ·) :=
    (List.Perm.pairwise_iff (fun {a b} h => Ne.symm h) htperm).mpr hdist
  exact (htsorted.and hne).imp fun h => lt_of_le_of_ne h.1 h.2

/-- Witness for C2 at a concrete queue. -/
theorem dispatcher_executes_in_ascending_order_witness :
    ∃ t, runE 3 ([10, 5, 7].map pureEv) = .ok t ∧
      t.Perm [10, 5, 7] ∧ t.Pairwise (· < ·) :=
  dispatcher_executes_in_ascending_order [10, 5, 7] (by norm_num)

/-! ## Lifecycle state machine (src/osio.py)

A workload Deployment manifest, restricted to the fields the Lifecycle event
reads and writes: `spec.replicas`, `status.ready_replicas` (absent key gives
Python `None`, hence `Option`), and the `ocs-monkey/osio-*` annotations.
Annotation values are floats-as-strings in the source; they are modelled
directly as rationals.  A missing annotation is `none`; reading a missing
annotation with `anno[...]` raises `KeyError`, which the lifecycle code does
not catch, so such reads make the modelled function return `none` overall. -/

/-- The `ocs-monkey/osio-*` annotations of a workload deployment. -/
structure Anno where
  active : Option ℚ
  idle : Option ℚ
  destroyAt : Option ℚ
  idleAt : Option ℚ
  healthAt : Option ℚ
  nextTime : Option ℚ
  nextAction : Option String
  pvc : Option String
deriving Repr, DecidableEq

/-- A workload deployment manifest (the fields used by `Lifecycle`). -/
structure Deploy where
  replicas : Int
  readyReplicas : Option Int
  anno : Anno
deriving Repr, DecidableEq

/-- `WORKAROUND_MIN_RUNTIME` (src/osio.py line 29). -/
def workaroundMinRuntime : Bool := true

/-- `Lifecycle._health_interval` — health recheck period when running. -/
def healthInterval : ℚ := 10

/-- `Lifecycle._health_interval_initial` — health delay while a pod starts. -/
def healthIntervalInitial : ℚ := 90

/-- `Lifecycle._action_initialize`.  `draw` is the value returned by
`random.expovariate(1/idle_mean)`; with `WORKAROUND_MIN_RUNTIME` it is
clamped from below by `_health_interval_initial`. -/
def actionInitialize (now draw : ℚ) (d : Deploy) : Option Deploy :=
  match d.anno.idle with
  | none => none
  | some _ =>
    let idleDuration := if workaroundMinRuntime then max draw healthIntervalInitial else draw
    let idleTime := now + idleDuration
    let healthTime := now + healthIntervalInitial
    some { d with anno :=
      { d.anno with idleAt := some idleTime, healthAt := some healthTime } }

/-- `Lifecycle._action_destroy`: deletes the Deployment and the PVC named by
the `osio-pvc` annotation; yields that PVC name. -/
def actionDestroy (d : Deploy) : Option String :=
  d.anno.pvc

/-- `Lifecycle._action_health`: raise `UnhealthyDeployment` when the
deployment is active (`spec.replicas == 1`) but `status.ready_replicas != 1`
(Python `None != 1` is true, hence the `Option` comparison); otherwise push
`osio-health-at` forward by `_health_interval`. -/
def actionHealth (ns nm : String) (now : ℚ) (d : Deploy) : Except Unhealthy Deploy :=
  if d.replicas = 1 ∧ d.readyReplicas ≠ some 1 then .error ⟨ns, nm⟩
  else .ok { d with anno := { d.anno with healthAt := some (now + healthInterval) } }

/-- `Lifecycle._action_idle`: flip between idle (`replicas = 0`) and active
(`replicas = 1`).  `draw` is the `random.expovariate` result for the branch
taken (mean `osio-active` on idle→active, mean `osio-idle` on active→idle),
clamped by the workaround. -/
def actionIdle (now draw : ℚ) (d : Deploy) : Option Deploy :=
  if d.replicas = 0 then
    match d.anno.active with
    | none => none
    | some _ =>
      let activeDuration := if workaroundMinRuntime then max draw healthIntervalInitial else draw
      let idleTime := now + activeDuration
      let healthTime := now + healthIntervalInitial
      some { d with replicas := 1, anno :=
        { d.anno with idleAt := some idleTime, healthAt := some healthTime } }
  else
    match d.anno.idle with
    | none => none
    | some _ =>
      let idleDuration := if workaroundMinRuntime then max draw healthIntervalInitial else draw
      let idleTime := now + idleDuration
      let healthTime := now + healthInterval
      some { d with replicas := 0, anno :=
        { d.anno with idleAt := some idleTime, healthAt := some healthTime } }

/-- `Lifecycle._update_and_schedule`: set `osio-next-time` to the minimum of
the destroy/idle/health deadlines, record the winning action in
`osio-next-action` (ties are resolved destroy ≻ idle ≻ health by the
`if`/`elif`/`else` chain), patch the deployment, and return the single
follow-on Lifecycle time. -/
def updateAndSchedule (d : Deploy) : Option (Deploy × ℚ) :=
  match d.anno.destroyAt, d.anno.idleAt, d.anno.healthAt with
  | some destroyTime, some idleTime, some healthTime =>
    let nextTime := min destroyTime (min idleTime healthTime)
    let action := if nextTime = destroyTime then "destroy"
      else if nextTime = idleTime then "idle" else "health"
    some ({ d with anno :=
      { d.anno with nextTime := some nextTime, nextAction := some action } }, nextTime)
  | _, _, _ => none

/-- Result of one `Lifecycle.execute` tick. -/
inductive Outcome where
  /-- Ran too early: return `[Lifecycle(etime)]` without touching the cluster. -/
  | rescheduled (t : ℚ)
  /-- Destroy path: deployment and the named PVC deleted, no follow-ons. -/
  | destroyed (pvc : String)
  /-- `UnhealthyDeployment` raised out of the health check. -/
  | unhealthy (u : Unhealthy)
  /-- Deployment patched to `d` and one follow-on Lifecycle at `next`. -/
  | patched (d : Deploy) (next : ℚ)
deriving Repr, DecidableEq

/-- `Lifecycle.execute` (src/osio.py lines 472-497).  `ns`/`nm` identify the
deployment, `now` is `time.time()` and `draw` the exponential draw used by
whichever action runs. -/
def lcExecute (ns nm : String) (now draw : ℚ) (d : Deploy) : Option Outcome :=
  match d.anno.nextAction with
  | none =>
    match actionInitialize now draw d with
    | none => none
    | some d2 => (updateAndSchedule d2).map fun p => .patched p.1 p.2
  | some eaction =>
    match d.anno.nextTime with
    | none => none
    | some etime =>
      if now < etime then some (.rescheduled etime)
      else if eaction = "destroy" then (actionDestroy d).map .destroyed
      else if eaction = "health" then
        match actionHealth ns nm now d with
        | .error u => some (.unhealthy u)
        | .ok d2 => (updateAndSchedule d2).map fun p => .patched p.1 p.2
      else if eaction = "idle" then
        match actionIdle now draw d with
        | none => none
        | some d2 => (updateAndSchedule d2).map fun p => .patched p.1 p.2
      else none

/-- Full characterization of `_update_and_schedule`: the written-back
annotations, the returned follow-on time, and the untouched fields. -/
theorem updateAndSchedule_spec {d d2 : Deploy} {t : ℚ}
    (h : updateAndSchedule d = some (d2, t)) :
    ∃ de idl he, d.anno.destroyAt = some de ∧ d.anno.idleAt = some idl ∧
      d.anno.healthAt = some he ∧
      t = min de (min idl he) ∧
      d2.anno.nextTime = some t ∧
      d2.anno.destroyAt = some de ∧ d2.anno.idleAt = some idl ∧
      d2.anno.healthAt = some he ∧
      ((t = de ∧ d2.anno.nextAction = some "destroy") ∨
       (t ≠ de ∧ t = idl ∧ d2.anno.nextAction = some "idle") ∨
       (t ≠ de ∧ t ≠ idl ∧ t = he ∧ d2.anno.nextAction = some "health")) ∧
      d2.replicas = d.replicas := by
  unfold updateAndSchedule at h
  rcases hde : d.anno.destroyAt with _ | de <;> rw [hde] at h
  · exact absurd h (by simp)
  rcases hidl : d.anno.idleAt with _ | idl <;> rw [hidl] at h
  · exact absurd h (by simp)
  rcases hhe : d.anno.healthAt with _ | he <;> rw [hhe] at h
  · exact absurd h (by simp)
  simp only [Option.some.injEq, Prod.mk.injEq] at h
  obtain ⟨hd2, htv⟩ := h
  subst hd2
  subst htv
  refine ⟨de, idl, he, rfl, rfl, rfl, rfl, rfl, hde, hidl, hhe, ?_, rfl⟩
  by_cases h1 : min de (min idl he) = de
  · left
    exact ⟨h1, by rw [if_pos h1]⟩
  · by_cases h2 : min de (min idl he) = idl
    · right; left
      exact ⟨h1, h2, by rw [if_neg h1, if_pos h2]⟩
    · right; right
      have h3 : min de (min idl he) = he := by
        rcases min_choice de (min idl he) with hc | hc
        · exact absurd hc h1
        · rcases min_choice idl he with hc2 | hc2
          · exact absurd (hc.trans hc2) h2
          · exact hc.trans hc2
      exact ⟨h1, h2, h3, by rw [if_neg h1, if_neg h2]⟩

theorem actionInitialize_replicas {now draw : ℚ} {d d2 : Deploy}
    (h : actionInitialize now draw d = some d2) : d2.replicas = d.replicas := by
  unfold actionInitialize at h
  split at h
  · simp at h
  · simp only [Option.some.injEq] at h
    subst h
    rfl

theorem actionHealth_replicas {ns nm : String} {now : ℚ} {d d2 : Deploy}
    (h : actionHealth ns nm now d = .ok d2) : d2.replicas = d.replicas := by
  unfold actionHealth at h
  split at h
  · simp at h
  · simp only [Except.ok.injEq] at h
    subst h
    rfl

theorem actionIdle_replicas {now draw : ℚ} {d d2 : Deploy}
    (h : actionIdle now draw d = some d2) : d2.replicas = 0 ∨ d2.replicas = 1 := by
  unfold actionIdle at h
  split at h
  · split at h
    · simp at h
    · simp only [Option.some.injEq] at h
      subst h
      right; rfl
  · split at h
    · simp at h
    · simp only [Option.some.injEq] at h
      subst h
      left; rfl

/-- The common conclusion of every Lifecycle tick that ends in
`_update_and_schedule`. -/
theorem patched_core {dm d2 : Deploy} {t : ℚ}
    (hupd : updateAndSchedule dm = some (d2, t))
    (hrep : dm.replicas = 0 ∨ dm.replicas = 1) :
    (∃ de idl he, d2.anno.destroyAt = some de ∧ d2.anno.idleAt = some idl ∧
      d2.anno.healthAt = some he ∧ t = min de (min idl he) ∧
      ((d2.anno.nextAction = some "destroy" ∧ t = de) ∨
       (d2.anno.nextAction = some "idle" ∧ t = idl) ∨
       (d2.anno.nextAction = some "health" ∧ t = he))) ∧
    d2.anno.nextTime = some t ∧ (d2.replicas = 0 ∨ d2.replicas = 1) := by
  obtain ⟨de, idl, he, _, _, _, htmin, hnt, hde2, hidl2, hhe2, hact, hrepeq⟩ :=
    updateAndSchedule_spec hupd
  refine ⟨⟨de, idl, he, hde2, hidl2, hhe2, htmin, ?_⟩, hnt, hrepeq ▸ hrep⟩
  rcases hact with ⟨h1, h2⟩ | ⟨_, h1, h2⟩ | ⟨_, _, h1, h2⟩
  · exact Or.inl ⟨h2, h1⟩
  · exact Or.inr (Or.inl ⟨h2, h1⟩)
  · exact Or.inr (Or.inr ⟨h2, h1⟩)

/-- C1 — Lifecycle annotation invariant: every Lifecycle tick that ends by
patching the deployment and rescheduling (the initialize, health and idle
paths all finish in `_update_and_schedule`) writes back annotations with
`osio-next-time` equal to the minimum of `osio-destroy-at`, `osio-idle-at`
and `osio-health-at`, with `osio-next-action` naming a field achieving that
minimum, keeps `spec.replicas ∈ {0,1}` (given it was 0 or 1 before the
tick), and returns a single follow-on Lifecycle at `osio-next-time`. -/
theorem lifecycle_patch_invariant (ns nm : String) (now draw : ℚ)
    (d d2 : Deploy) (t : ℚ)
    (hrep : d.replicas = 0 ∨ d.replicas = 1)
    (h : lcExecute ns nm now draw d = some (.patched d2 t)) :
    (∃ de idl he, d2.anno.destroyAt = some de ∧ d2.anno.idleAt = some idl ∧
      d2.anno.healthAt = some he ∧ t = min de (min idl he) ∧
      ((d2.anno.nextAction = some "destroy" ∧ t = de) ∨
       (d2.anno.nextAction = some "idle" ∧ t = idl) ∨
       (d2.anno.nextAction = some "health" ∧ t = he))) ∧
    d2.anno.nextTime = some t ∧ (d2.replicas = 0 ∨ d2.replicas = 1) := by
  unfold lcExecute at h
  split at h
  · -- first tick: initialize path
    split at h
    · simp at h
    · rename_i dm hinit
      rcases hupd : updateAndSchedule dm with _ | ⟨dmid, tmid⟩ <;> rw [hupd] at h
      · simp at h
      · simp only [Option.map_some', Option.some.injEq, Outcome.patched.injEq] at h
        obtain ⟨h1, h2⟩ := h
        subst h1; subst h2
        exact patched_core hupd ((actionInitialize_replicas hinit) ▸ hrep)
  · -- next-action present
    split at h
    · simp at h
    · split at h
      · -- ran too early: rescheduled, not patched
        simp at h
      · split at h
        · -- destroy path: no patch outcome
          rcases hp : d.anno.pvc with _ | pvc <;> simp [actionDestroy, hp] at h
        · split at h
          · -- health path
            split at h
            · simp at h
            · rename_i dm hah
              rcases hupd : updateAndSchedule dm with _ | ⟨dmid, tmid⟩ <;>
                rw [hupd] at h
              · simp at h
              · simp only [Option.map_some', Option.some.injEq,
                  Outcome.patched.injEq] at h
                obtain ⟨h1, h2⟩ := h
                subst h1; subst h2
                exact patched_core hupd ((actionHealth_replicas hah) ▸ hrep)
          · split at h
            · -- idle path
              split at h
              · simp at h
              · rename_i dm hai
                rcases hupd : updateAndSchedule dm with _ | ⟨dmid, tmid⟩ <;>
                  rw [hupd] at h
                · simp at h
                · simp only [Option.map_some', Option.some.injEq,
                    Outcome.patched.injEq] at h
                  obtain ⟨h1, h2⟩ := h
                  subst h1; subst h2
                  exact patched_core hupd (actionIdle_replicas hai)
            · simp at h

/-- Concrete input for the C1 witness: an active deployment due for its
`idle` action. -/
def dW1 : Deploy :=
  { replicas := 1, readyReplicas := some 1, anno :=
    { active := some 60, idle := some 30, destroyAt := some 1000,
      idleAt := some 50, healthAt := some 60, nextTime := some 50,
      nextAction := some "idle", pvc := some "pvc-9" } }

/-- Result of the C1 witness tick. -/
def dW1res : Deploy :=
  { replicas := 0, readyReplicas := some 1, anno :=
    { active := some 60, idle := some 30, destroyAt := some 1000,
      idleAt := some 190, healthAt := some 110, nextTime := some 110,
      nextAction := some "health", pvc := some "pvc-9" } }

/-- Witness for C1 at a concrete tick. -/
theorem lifecycle_patch_invariant_witness :
    (∃ de idl he, dW1res.anno.destroyAt = some de ∧
      dW1res.anno.idleAt = some idl ∧ dW1res.anno.healthAt = some he ∧
      (110 : ℚ) = min de (min idl he) ∧
      ((dW1res.anno.nextAction = some "destroy" ∧ (110 : ℚ) = de) ∨
       (dW1res.anno.nextAction = some "idle" ∧ (110 : ℚ) = idl) ∨
       (dW1res.anno.nextAction = some "health" ∧ (110 : ℚ) = he))) ∧
    dW1res.anno.nextTime = some 110 ∧ (dW1res.replicas = 0 ∨ dW1res.replicas = 1) :=
  lifecycle_patch_invariant "monkey" "w" 100 5 dW1 dW1res 110 (Or.inr rfl)
    (by norm_num [lcExecute, dW1, dW1res, actionIdle, updateAndSchedule,
      workaroundMinRuntime, healthInterval, healthIntervalInitial, min_def]; simp)

/-- C10 — Lifecycle tie-break: when deadlines tie at the minimum,
`_update_and_schedule` resolves `osio-next-action` by the fixed priority of
its `if`/`elif`/`else` chain: `destroy` whenever the minimum equals
`osio-destroy-at`, otherwise `idle` whenever it equals `osio-idle-at`, and
`health` exactly when `osio-health-at` is the strictly unique minimum. -/
theorem updateAndSchedule_tiebreak (d d2 : Deploy) (t de idl he : ℚ)
    (hde : d.anno.destroyAt = some de) (hidl : d.anno.idleAt = some idl)
    (hhe : d.anno.healthAt = some he)
    (h : updateAndSchedule d = some (d2, t)) :
    (t = de → d2.anno.nextAction = some "destroy") ∧
    (t ≠ de → t = idl → d2.anno.nextAction = some "idle") ∧
    (d2.anno.nextAction = some "health" ↔ he < de ∧ he < idl) := by
  obtain ⟨de2, idl2, he2, hde2, hidl2, hhe2, htmin, _, _, _, _, hact, _⟩ :=
    updateAndSchedule_spec h
  have hdeq : de2 = de := Option.some.inj (hde2.symm.trans hde)
  have hieq : idl2 = idl := Option.some.inj (hidl2.symm.trans hidl)
  have hheq : he2 = he := Option.some.inj (hhe2.symm.trans hhe)
  rw [hdeq, hieq, hheq] at htmin hact
  refine ⟨?_, ?_, ?_, ?_⟩
  · intro hteq
    rcases hact with ⟨_, h2⟩ | ⟨hne, _, _⟩ | ⟨hne, _, _, _⟩
    · exact h2
    · exact absurd hteq hne
    · exact absurd hteq hne
  · intro htne htidl
    rcases hact with ⟨h1, _⟩ | ⟨_, _, h2⟩ | ⟨_, hne2, _, _⟩
    · exact absurd h1 htne
    · exact h2
    · exact absurd htidl hne2
  · intro hhealth
    rcases hact with ⟨_, h2⟩ | ⟨_, _, h2⟩ | ⟨hne, hne2, hthe, _⟩
    · exact absurd (Option.some.inj (h2.symm.trans hhealth)) (by decide)
    · exact absurd (Option.some.inj (h2.symm.trans hhealth)) (by decide)
    · subst hthe
      constructor
      · refine lt_of_le_of_ne ?_ hne
        rw [htmin]
        exact min_le_left _ _
      · refine lt_of_le_of_ne ?_ hne2
        rw [htmin]
        exact le_trans (min_le_right _ _) (min_le_left _ _)
  · rintro ⟨hlt1, hlt2⟩
    have htval : t = he := by
      rw [htmin, min_eq_right hlt2.le, min_eq_right hlt1.le]
    rcases hact with ⟨h1, _⟩ | ⟨_, h1, _⟩ | ⟨_, _, _, h2⟩
    · exact absurd (htval.symm.trans h1) (ne_of_lt hlt1)
    · exact absurd (htval.symm.trans h1) (ne_of_lt hlt2)
    · exact h2

/-- Concrete tie input for the C10 witness: all three deadlines equal. -/
def dTie : Deploy :=
  { replicas := 1, readyReplicas := some 1, anno :=
    { active := some 60, idle := some 30, destroyAt := some 5,
      idleAt := some 5, healthAt := some 5, nextTime := none,
      nextAction := none, pvc := some "pvc-1" } }

/-- Result of `_update_and_schedule` on the three-way tie. -/
def dTieRes : Deploy :=
  { replicas := 1, readyReplicas := some 1, anno :=
    { active := some 60, idle := some 30, destroyAt := some 5,
      idleAt := some 5, healthAt := some 5, nextTime := some 5,
      nextAction := some "destroy", pvc := some "pvc-1" } }

/-- Witness for C10 at a three-way tie. -/
theorem updateAndSchedule_tiebreak_witness :
    ((5 : ℚ) = 5 → dTieRes.anno.nextAction = some "destroy") ∧
    ((5 : ℚ) ≠ 5 → (5 : ℚ) = 5 → dTieRes.anno.nextAction = some "idle") ∧
    (dTieRes.anno.nextAction = some "health" ↔ (5 : ℚ) < 5 ∧ (5 : ℚ) < 5) :=
  updateAndSchedule_tiebreak dTie dTieRes 5 5 5 5 rfl rfl rfl
    (by norm_num [updateAndSchedule, dTie, dTieRes])

/-- On a due `health` tick where `_action_health` raises, `Lifecycle.execute`
surfaces the `UnhealthyDeployment`. -/
theorem lcExecute_health_err {ns nm : String} {now draw et : ℚ} {d : Deploy}
    {u : Unhealthy}
    (hna : d.anno.nextAction = some "health") (hnt : d.anno.nextTime = some et)
    (hdue : et ≤ now) (hah : actionHealth ns nm now d = .error u) :
    lcExecute ns nm now draw d = some (.unhealthy u) := by
  unfold lcExecute
  simp only [hna, hnt]
  rw [if_neg (not_lt.mpr hdue)]
  simp only [if_neg (by decide : ¬("health" : String) = "destroy"), if_pos rfl, hah,
    if_true]

/-- On a due `health` tick where `_action_health` succeeds,
`Lifecycle.execute` continues into `_update_and_schedule`. -/
theorem lcExecute_health_ok {ns nm : String} {now draw et : ℚ} {d d2 : Deploy}
    (hna : d.anno.nextAction = some "health") (hnt : d.anno.nextTime = some et)
    (hdue : et ≤ now) (hah : actionHealth ns nm now d = .ok d2) :
    lcExecute ns nm now draw d =
      (updateAndSchedule d2).map fun p => .patched p.1 p.2 := by
  unfold lcExecute
  simp only [hna, hnt]
  rw [if_neg (not_lt.mpr hdue)]
  simp only [if_neg (by decide : ¬("health" : String) = "destroy"), if_pos rfl, hah,
    if_true]

theorem map_patched_ne_unhealthy (o : Option (Deploy × ℚ)) (u : Unhealthy) :
    (o.map fun p => Outcome.patched p.1 p.2) ≠ some (.unhealthy u) := by
  cases o <;> simp

/-- C5 — Lifecycle `health` action: on a due `health` tick the run raises
`UnhealthyDeployment(namespace, name)` if and only if `spec.replicas == 1`
and `status.ready_replicas != 1`; otherwise it writes
`osio-health-at = now + 10` and reschedules a single follow-on Lifecycle at
the recomputed `osio-next-time`; and an exception escaping an event's
`execute` propagates out of `Dispatcher.run`, aborting the run with that
exception. -/
theorem lifecycle_health_action (ns nm : String) (now draw et : ℚ) (d : Deploy)
    (hna : d.anno.nextAction = some "health") (hnt : d.anno.nextTime = some et)
    (hdue : et ≤ now) :
    (lcExecute ns nm now draw d = some (.unhealthy ⟨ns, nm⟩) ↔
      d.replicas = 1 ∧ d.readyReplicas ≠ some 1) ∧
    (∀ de idl, ¬(d.replicas = 1 ∧ d.readyReplicas ≠ some 1) →
      d.anno.destroyAt = some de → d.anno.idleAt = some idl →
      ∃ d2, lcExecute ns nm now draw d =
          some (.patched d2 (min de (min idl (now + healthInterval)))) ∧
        d2.anno.healthAt = some (now + healthInterval)) ∧
    (∀ (fuel : Nat) (q : List Ev) (e : Ev) (rest : List Ev) (u : Unhealthy),
      popMin q = some (e, rest) → e.run1 = .error u →
      runE (fuel + 1) q = .error u) := by
  refine ⟨?_, ?_, ?_⟩
  · constructor
    · intro h
      by_contra hc
      have hah : actionHealth ns nm now d =
          .ok { d with anno := { d.anno with
            healthAt := some (now + healthInterval) } } := by
        unfold actionHealth
        rw [if_neg hc]
      rw [lcExecute_health_ok hna hnt hdue hah] at h
      exact map_patched_ne_unhealthy _ _ h
    · intro hcond
      have hah : actionHealth ns nm now d = .error ⟨ns, nm⟩ := by
        unfold actionHealth
        rw [if_pos hcond]
      exact lcExecute_health_err hna hnt hdue hah
  · intro de idl hc hde hidl
    have hah : actionHealth ns nm now d =
        .ok { d with anno := { d.anno with
          healthAt := some (now + healthInterval) } } := by
      unfold actionHealth
      rw [if_neg hc]
    rw [lcExecute_health_ok hna hnt hdue hah]
    have hupd : updateAndSchedule { d with anno :=
        { d.anno with healthAt := some (now + healthInterval) } } =
        some ({ d with anno := { d.anno with
            healthAt := some (now + healthInterval),
            nextTime := some (min de (min idl (now + healthInterval))),
            nextAction := some (if min de (min idl (now + healthInterval)) = de
              then "destroy"
              else if min de (min idl (now + healthInterval)) = idl
              then "idle" else "health") } },
          min de (min idl (now + healthInterval))) := by
      unfold updateAndSchedule
      simp only [hde, hidl]
    rw [hupd]
    exact ⟨_, rfl, rfl⟩
  · intro fuel q e rest u hpop hrun
    simp only [runE, hpop, hrun]

/-- Concrete unhealthy deployment for the C5 witness: active but with no
ready replicas. -/
def dHealth : Deploy :=
  { replicas := 1, readyReplicas := none, anno :=
    { active := some 60, idle := some 30, destroyAt := some 1000,
      idleAt := some 400, healthAt := some 50, nextTime := some 50,
      nextAction := some "health", pvc := some "pvc-2" } }

/-- Witness for C5: the unhealthy case raises at a concrete input. -/
theorem lifecycle_health_action_witness :
    lcExecute "monkey" "web" 100 0 dHealth =
      some (.unhealthy ⟨"monkey", "web"⟩) :=
  (lifecycle_health_action "monkey" "web" 100 0 50 dHealth rfl rfl
    (by norm_num)).1.mpr ⟨rfl, by simp [dHealth]⟩

/-! ## Scenario B — Lifecycle initial tick (C6)

The spec's scenario ignores the `WORKAROUND_MIN_RUNTIME` clamp, which is
enabled in the source (src/osio.py line 29): with a drawn idle duration of
7.5 s, `_action_initialize` clamps it to `max 7.5 90 = 90`, so the patch
records `osio-idle-at = now+90`, not `now+7.5`. -/

/-- The Scenario B input deployment at time `now`: fresh, active=60, idle=30,
destroy-at = now+1000, no `osio-next-action`. -/
def deployB (now : ℚ) : Deploy :=
  { replicas := 1, readyReplicas := some 1, anno :=
    { active := some 60, idle := some 30, destroyAt := some (now + 1000),
      idleAt := none, healthAt := none, nextTime := none,
      nextAction := none, pvc := some "pvc-1" } }

/-- What the initial tick actually patches for Scenario B. -/
def deployBres (now : ℚ) : Deploy :=
  { replicas := 1, readyReplicas := some 1, anno :=
    { active := some 60, idle := some 30, destroyAt := some (now + 1000),
      idleAt := some (now + 90), healthAt := some (now + 90),
      nextTime := some (now + 90), nextAction := some "idle",
      pvc := some "pvc-1" } }

/-- Counterexample to C6 at `now = 0`, draw `exp(1/30) = 7.5`: the initial
tick schedules the next Lifecycle at `now + 90` (the workaround clamp), not
`now + 7.5`, and writes `osio-idle-at = now + 90`, not `now + 7.5`. -/
theorem scenarioB_claim_false :
    lcExecute "monkey" "osio-worker-1" 0 (15 / 2) (deployB 0) =
      some (.patched (deployBres 0) 90) ∧
    (deployBres 0).anno.idleAt ≠ some (15 / 2) ∧ (90 : ℚ) ≠ 15 / 2 := by
  refine ⟨?_, by norm_num [deployBres], by norm_num⟩
  norm_num [lcExecute, deployB, deployBres, actionInitialize, updateAndSchedule,
    workaroundMinRuntime, healthInterval, healthIntervalInitial, min_def]

/-- C6 (amended) — Scenario B with the enabled `WORKAROUND_MIN_RUNTIME`
clamp: on the first Lifecycle tick of a deployment annotated
`osio-active=60, osio-idle=30, osio-destroy-at=now+1000` and lacking
`osio-next-action`, when the exponential draw with mean 30 yields 7.5, the
clamp raises the idle duration to 90, so the patched annotations are
`osio-idle-at = now+90`, `osio-health-at = now+90`, `osio-next-time = now+90`,
`osio-next-action = idle`, and the next Lifecycle is scheduled at `now+90`. -/
theorem scenarioB_initial_tick (now : ℚ) :
    lcExecute "monkey" "osio-worker-1" now (15 / 2) (deployB now) =
      some (.patched (deployBres now) (now + 90)) := by
  have h75 : ((15 : ℚ) / 2) ⊔ 90 = 90 := by
    rw [max_eq_right]
    norm_num
  have hmin : min (now + 1000) (min (now + 90) (now + 90)) = now + 90 := by
    rw [min_self, min_eq_right (by linarith)]
  unfold lcExecute deployB actionInitialize updateAndSchedule
  simp only [workaroundMinRuntime, healthIntervalInitial, healthInterval,
    if_true, h75, hmin, deployBres]
  rw [if_neg (fun h => absurd (add_left_cancel h) (by norm_num))]
  rfl

/-! ## DeletePodType.get (src/failure_ocs.py lines 152-187)

The gateway and RNG are parameters: `healthy` is the result of
`self._cluster.is_healthy()`, `items` the deployments matched by the label
selector, `shuffleD`/`shuffleP` the in-place `random.shuffle` (assumed to
permute when relevant), and `podsFor` the pod listing keyed by the chosen
deployment's `spec.selector.match_labels`. -/

/-- A SUT component deployment as read by `DeletePodType.get`. -/
structure SDeploy where
  name : String
  replicas : Int
  readyReplicas : Option Int
  matchLabels : List (String × String)
deriving Repr, DecidableEq

/-- A pod manifest (the identity `DeletePod` keeps). -/
structure PodM where
  ns : String
  name : String
deriving Repr, DecidableEq

/-- The data captured by `DeletePod.__init__`: pod namespace, pod name and
the owning deployment's name. -/
structure DeletePodF where
  ns : String
  name : String
  deployment : String
deriving Repr, DecidableEq

/-- The four `NoSafeFailures` raise sites in `DeletePodType.get`. -/
inductive NoSafe where
  /-- "ceph cluster is not healthy" -/
  | notHealthy
  /-- "No deployments matched selector: ..." -/
  | noDeployments
  /-- "No pods are safe to kill" -/
  | notSafe
  /-- "No pods maatched selector: ..." -/
  | noPods
deriving Repr, DecidableEq

/-- `DeletePodType.get`.  Returns `none` only on the unreachable indexing of
an empty shuffled list (the source indexes `items[0]` after a non-empty
check, so a permuting shuffle keeps this reachable code total). -/
def deletePodTypeGet (healthy : Bool) (items : List SDeploy)
    (shuffleD : List SDeploy → List SDeploy)
    (podsFor : SDeploy → List PodM)
    (shuffleP : List PodM → List PodM) : Option (Except NoSafe DeletePodF) :=
  if !healthy then some (.error .notHealthy)
  else if items = [] then some (.error .noDeployments)
  else if items.any (fun dep => dep.readyReplicas ≠ some dep.replicas) then
    some (.error .notSafe)
  else
    match shuffleD items with
    | [] => none
    | dep :: _ =>
      if podsFor dep = [] then some (.error .noPods)
      else
        match shuffleP (podsFor dep) with
        | [] => none
        | p :: _ => some (.ok ⟨p.ns, p.name, dep.name⟩)

/-- C3 — selector safety of `DeletePodType.get`: it raises `NoSafeFailures`
whenever the health oracle reports the cluster unhealthy, whenever no
deployment matches the selector, and whenever any matched deployment has
`spec.replicas != status.ready_replicas`; and a returned `DeletePod` fault
always stems from a matched deployment that was not degraded at selection
time (the shuffle being a permutation of the matched list). -/
theorem deletePodTypeGet_safe (healthy : Bool) (items : List SDeploy)
    (shuffleD : List SDeploy → List SDeploy)
    (podsFor : SDeploy → List PodM)
    (shuffleP : List PodM → List PodM) :
    (healthy = false →
      deletePodTypeGet healthy items shuffleD podsFor shuffleP =
        some (.error .notHealthy)) ∧
    (healthy = true → items = [] →
      deletePodTypeGet healthy items shuffleD podsFor shuffleP =
        some (.error .noDeployments)) ∧
    (healthy = true →
      ∀ dep ∈ items, dep.readyReplicas ≠ some dep.replicas →
      deletePodTypeGet healthy items shuffleD podsFor shuffleP =
        some (.error .notSafe)) ∧
    (∀ f, (shuffleD items).Perm items →
      deletePodTypeGet healthy items shuffleD podsFor shuffleP = some (.ok f) →
      ∃ dep ∈ items, dep.name = f.deployment ∧
        dep.readyReplicas = some dep.replicas) := by
  refine ⟨?_, ?_, ?_, ?_⟩
  · intro hh
    subst hh
    rfl
  · intro hh hempty
    subst hh
    subst hempty
    rfl
  · intro hh dep hmem hdeg
    subst hh
    have hne : items ≠ [] := by
      intro h
      subst h
      simp at hmem
    have hany : items.any (fun dep => dep.readyReplicas ≠ some dep.replicas) = true := by
      rw [List.any_eq_true]
      exact ⟨dep, hmem, by simpa using hdeg⟩
    unfold deletePodTypeGet
    rw [if_neg (by simp), if_neg hne, if_pos hany]
  · intro f hperm hok
    unfold deletePodTypeGet at hok
    split at hok
    · simp at hok
    · split at hok
      · simp at hok
      · split at hok
        · simp at hok
        · rename_i hh hne hany
          split at hok
          · simp at hok
          · rename_i dep rest heq
            have hmem : dep ∈ items := by
              rw [heq] at hperm
              exact hperm.subset (List.mem_cons_self dep rest)
            split at hok
            · simp at hok
            · split at hok
              · simp at hok
              · simp only [Option.some.injEq, Except.ok.injEq] at hok
                subst hok
                refine ⟨dep, hmem, rfl, ?_⟩
                have hall : ¬ dep.readyReplicas ≠ some dep.replicas := by
                  intro hxx
                  exact hany (List.any_eq_true.mpr ⟨dep, hmem, by simpa using hxx⟩)
                exact not_not.mp hall

/-- The matched deployment list for the C3 witness. -/
def sdeployW : SDeploy :=
  { name := "csi-rbdplugin-a", replicas := 1, readyReplicas := some 1,
    matchLabels := [("app", "csi-rbdplugin")] }

/-- Witness for C3: a healthy, fully-ready deployment yields a fault whose
source deployment was not degraded. -/
theorem deletePodTypeGet_safe_witness :
    ∃ dep ∈ [sdeployW], dep.name = "csi-rbdplugin-a" ∧
      dep.readyReplicas = some dep.replicas :=
  (deletePodTypeGet_safe true [sdeployW] id
      (fun _ => [⟨"openshift-storage", "pod-1"⟩]) id).2.2.2
    ⟨"openshift-storage", "pod-1", "csi-rbdplugin-a"⟩
    (List.Perm.refl _) (by rfl)

/-! ## Chaos loop repair stack (src/chaos_runner.py main, lines 136-170)

One iteration of the `while True` loop, restricted to its effect on
`pending_repairs`.  `newFault` is the outcome of the `get_failure` attempt
(`none` when `NoSafeFailures` was swallowed), `drawAbove` is the Boolean
`random.random() > additional_failure`.  The first component of the result
is the sequence of `repair()` calls made this iteration (in order), the
second the `pending_repairs` list afterwards. -/
def chaosIter {α : Type} (pending : List α) (newFault : Option α)
    (drawAbove : Bool) : List α × List α :=
  let pending2 := match newFault with
    | some f => pending ++ [f]
    | none => pending
  if drawAbove || newFault.isNone then (pending2.reverse, [])
  else ([], pending2)

/-- The `pending_repairs` stack after a run of iterations that each push one
fault and skip the repair phase. -/
def stackAfterPushes {α : Type} (fs : List α) : List α :=
  fs.foldl (fun st f => (chaosIter st (some f) false).2) []

theorem stackAfterPushes_eq {α : Type} (fs : List α) :
    stackAfterPushes fs = fs := by
  have haux : ∀ (fs acc : List α),
      fs.foldl (fun st f => (chaosIter st (some f) false).2) acc = acc ++ fs := by
    intro fs
    induction fs with
    | nil => intro acc; simp
    | cons f tail ih =>
      intro acc
      rw [List.foldl_cons]
      have hstep : (chaosIter acc (some f) false).2 = acc ++ [f] := by
        simp [chaosIter]
      rw [hstep, ih (acc ++ [f])]
      simp
  simpa using haux fs []

/-- C4 — LIFO repair: a chaos-loop iteration that enters the repair phase
after faults `fs` were invoked and pushed (plus optionally one fault `g`
pushed in the same iteration) calls `repair()` on the outstanding faults in
exactly the reverse of their push order, and leaves `pending_repairs` empty.
Iterations that skip the repair phase call no `repair()` at all
(`chaosIter` returns an empty call list there). -/
theorem chaos_repair_lifo {α : Type} (fs : List α) (g : Option α) :
    (chaosIter (stackAfterPushes fs) g true).1 = (fs ++ g.toList).reverse ∧
    (chaosIter (stackAfterPushes fs) g true).2 = [] := by
  rw [stackAfterPushes_eq]
  cases g with
  | none => simp [chaosIter]
  | some f => simp [chaosIter]

/-! ## CephCluster.problems (src/failure_ocs.py lines 66-102)

The CRD manifest is modelled as a small JSON-ish tree of strings and
objects.  `jGet` models Python `dict.get`: `none` for the `AttributeError`
of calling `.get` on a non-dict, `some none` for a missing key, and
`some (some v)` for a present key.  The overall `Option` on `problems`
models an uncaught Python exception. -/

/-- A JSON-like value: a string leaf or an object of key/value fields. -/
inductive JVal where
  | s (v : String)
  | obj (fields : List (String × JVal))

/-- Association-list field lookup. -/
def lookupField : List (String × JVal) → String → Option JVal
  | [], _ => none
  | (k, v) :: rest, key => if k = key then some v else lookupField rest key

/-- Python `value.get(key)`: `none` when `value` is not a dict
(`AttributeError`), otherwise the field lookup (missing key gives Python
`None`). -/
def jGet : JVal → String → Option (Option JVal)
  | .s _, _ => none
  | .obj fields, key => some (lookupField fields key)

/-- `CephCluster.problems`: returns `{}` when `status`, `status.ceph` or
`status.ceph.details` is missing, and otherwise returns the value of
`status.ceph.health` (a `KeyError` when that key is absent) — NOT the
`details` subtree that its own docstring and type annotation promise. -/
def problems (ceph : JVal) : Option JVal :=
  match jGet ceph "status" with
  | none => none
  | some none => some (.obj [])
  | some (some st) =>
    match jGet st "ceph" with
    | none => none
    | some none => some (.obj [])
    | some (some cst) =>
      match jGet cst "details" with
      | none => none
      | some none => some (.obj [])
      | some (some _) =>
        match jGet cst "health" with
        | none => none
        | some none => none
        | some (some h) => some h

/-- The `details` subtree used in the repository's own docstring example. -/
def detailsEx : JVal :=
  .obj [("OSD_NEARFULL", .obj [("message", .s "1 nearfull osd(s)"),
                               ("severity", .s "HEALTH_WARN")])]

/-- A CephCluster CRD whose `status.ceph` carries both `details` and
`health`, as in the comment block at the top of src/failure_ocs.py. -/
def cephEx : JVal :=
  .obj [("status", .obj [("ceph", .obj [
    ("details", detailsEx),
    ("health", .s "HEALTH_WARN"),
    ("lastChanged", .s "2019-12-04T19:29:27Z")])])]

/-- C7 — `problems()` mis-reads the tree: on a manifest whose
`status.ceph.details` is present, the implementation returns the value of
`status.ceph.health` (the string `"HEALTH_WARN"`), not the map derived from
`status.ceph.details`; the empty-map cases for missing `status`,
`status.ceph` and `status.ceph.details` do behave as documented. -/
theorem problems_returns_health_not_details :
    problems cephEx = some (.s "HEALTH_WARN") ∧
    (∀ fields, JVal.s "HEALTH_WARN" ≠ JVal.obj fields) ∧
    problems (.obj []) = some (.obj []) ∧
    problems (.obj [("status", .obj [])]) = some (.obj []) ∧
    problems (.obj [("status", .obj [("ceph", .obj [("health", .s "HEALTH_OK")])])]) =
      some (.obj []) := by
  refine ⟨rfl, ?_, rfl, rfl, rfl⟩
  intro fields h
  exact JVal.noConfusion h

/-! ## await_mitigation (src/chaos_runner.py lines 33-44)

`mit k` is the result of the `k`-th call to `instance.mitigated()` (calls
counted from 0).  The loop keeps `time_remaining`, decrementing by the 10 s
sleep; the `while` condition short-circuits, so when `time_remaining ≤ 0`
`mitigated()` is not called by the test, and the final `return
instance.mitigated()` performs one more call.  The fuel bounds the loop
iterations and is chosen large enough to never run out. -/

/-- The polling loop of `await_mitigation`, with the index `k` of the next
`mitigated()` call. -/
def awaitAux (mit : Nat → Bool) : Nat → ℚ → Nat → Bool
  | 0, _, k => mit k
  | fuel + 1, tr, k =>
    if 0 < tr then
      if mit k then mit (k + 1)
      else awaitAux mit fuel (tr - 10) (k + 1)
    else mit k

/-- `await_mitigation(instance, timeout)`; `verify_steady_state()` is the
constant-true hook and has no observable effect. -/
def awaitMitigation (mit : Nat → Bool) (timeout : ℚ) : Bool :=
  awaitAux mit ((⌈timeout / 10⌉).toNat + 1) timeout 0

theorem awaitAux_eq_of_monotone (mit : Nat → Bool)
    (hmono : ∀ i j, i ≤ j → mit i = true → mit j = true) :
    ∀ (fuel : Nat) (tr : ℚ) (k : Nat), (⌈tr / 10⌉).toNat < fuel →
    awaitAux mit fuel tr k = mit (k + (⌈tr / 10⌉).toNat) := by
  intro fuel
  induction fuel with
  | zero => intro tr k h; omega
  | succ fuel ih =>
    intro tr k hfuel
    by_cases htr : 0 < tr
    · have hceil1 : 1 ≤ ⌈tr / 10⌉ := by
        have : (0 : ℚ) < tr / 10 := by positivity
        exact Int.ceil_pos.mpr this
      unfold awaitAux
      rw [if_pos htr]
      by_cases hmit : mit k = true
      · rw [hmit, if_pos rfl]
        have h1 : mit (k + 1) = true := hmono k (k + 1) (by omega) hmit
        have h2 : mit (k + (⌈tr / 10⌉).toNat) = true :=
          hmono k _ (by omega) hmit
        rw [h1, h2]
      · rw [Bool.not_eq_true] at hmit
        rw [hmit, if_neg Bool.false_ne_true]
        have hstep : ⌈(tr - 10) / 10⌉ = ⌈tr / 10⌉ - 1 := by
          have : (tr - 10) / 10 = tr / 10 - 1 := by ring
          rw [this, Int.ceil_sub_one]
        have hlt : (⌈(tr - 10) / 10⌉).toNat < fuel := by
          rw [hstep]
          omega
        rw [ih (tr - 10) (k + 1) hlt, hstep]
        congr 1
        omega
    · unfold awaitAux
      rw [if_neg htr]
      have hceil0 : (⌈tr / 10⌉).toNat = 0 := by
        have htr10 : tr / 10 ≤ ((0 : ℤ) : ℚ) := by
          push_cast
          have : tr ≤ 0 := le_of_not_lt htr
          linarith
        have := Int.ceil_le.mpr htr10
        omega
      rw [hceil0, Nat.add_zero]

/-- C8 — `await_mitigation` polls `mitigated()` (with a 10-second sleep
between polls, hence `⌈timeout/10⌉` in-loop polls plus the final return
call): assuming mitigation is persistent (once `mitigated()` is true it
stays true), the call returns true as soon as any poll up to the deadline
observes mitigation, and returns false when the deadline passes with every
poll unmitigated. -/
theorem awaitMitigation_spec (mit : Nat → Bool) (timeout : ℚ)
    (hmono : ∀ i j, i ≤ j → mit i = true → mit j = true) :
    ((∃ k, k ≤ (⌈timeout / 10⌉).toNat ∧ mit k = true) →
      awaitMitigation mit timeout = true) ∧
    ((∀ k, k ≤ (⌈timeout / 10⌉).toNat → mit k = false) →
      awaitMitigation mit timeout = false) := by
  have hval : awaitMitigation mit timeout = mit ((⌈timeout / 10⌉).toNat) := by
    unfold awaitMitigation
    rw [awaitAux_eq_of_monotone mit hmono _ timeout 0 (by omega), Nat.zero_add]
  constructor
  · rintro ⟨k, hk, hmit⟩
    rw [hval]
    exact hmono k _ hk hmit
  · intro hall
    rw [hval]
    exact hall _ le_rfl

/-- Witness for C8: with `timeout = 25` and mitigation first observed at the
second poll, `await_mitigation` returns true; with mitigation never
observed, it returns false. -/
theorem awaitMitigation_spec_witness :
    awaitMitigation (fun k => decide (1 ≤ k)) 25 = true ∧
    awaitMitigation (fun _ => false) 25 = false := by
  constructor
  · refine (awaitMitigation_spec (fun k => decide (1 ≤ k)) 25 ?_).1 ⟨1, ?_, by decide⟩
    · intro i j hij hi
      simp only [decide_eq_true_eq] at hi ⊢
      omega
    · show 1 ≤ (⌈(25 : ℚ) / 10⌉).toNat
      have := Int.ceil_pos.mpr (show (0 : ℚ) < 25 / 10 by norm_num)
      omega
  · exact (awaitMitigation_spec (fun _ => false) 25
      (fun i j h hi => hi)).2 (fun k h => rfl)

/-! ## kube.call (src/kube.py lines 26-59)

`api k` is the outcome of the `k`-th attempt of the wrapped API function:
either the server's object (already a dict in this model, so the
`to_dict` branch is the identity) or an `ApiException` carrying an HTTP
status.  `codes` is the optional exception-handling map (Python dict,
modelled as an association list); the default is `{500: "retry"}`.  The
`while True` retry loop is fuel-bounded; `none` models an unbounded retry
sequence that never returns. -/

/-- One attempt of the wrapped API function. -/
inductive ApiAttempt where
  /-- The call returned this object. -/
  | ok (v : JVal)
  /-- The call raised `ApiException` with this HTTP status. -/
  | err (status : Int)

/-- Python `codes.get(ex.status)`. -/
def codesGet (codes : List (Int × String)) (status : Int) : Option String :=
  match codes with
  | [] => none
  | (s, a) :: rest => if s = status then some a else codesGet rest status

/-- The default `codes` mapping: `{500: "retry"}`. -/
def defaultCodes : List (Int × String) := [(500, "retry")]

/-- The retry loop of `kube.call`, starting at attempt `k`. -/
def callAux (codes : List (Int × String)) (api : Nat → ApiAttempt) :
    Nat → Nat → Option (Except Int JVal)
  | 0, _ => none
  | fuel + 1, k =>
    match api k with
    | .ok v => some (.ok v)
    | .err s =>
      if codesGet codes s = some "ignore" then some (.ok (.obj []))
      else if codesGet codes s = some "retry" then callAux codes api fuel (k + 1)
      else some (.error s)

/-- `kube.call` with an explicit `codes` mapping (the caller passing no
`codes` uses `defaultCodes`). -/
def kubeCall (codes : List (Int × String)) (api : Nat → ApiAttempt)
    (fuel : Nat) : Option (Except Int JVal) :=
  callAux codes api fuel 0

/-- C9 — `kube.call` error handling: under the default codes mapping an
HTTP 500 makes the call sleep 1 s and retry the same call (one more loop
iteration against the next attempt, without bound); a status mapped to
`ignore` returns an empty object; an error status not in the mapping
propagates to the caller; and on success the server's object is returned
as a generic map. -/
theorem kubeCall_policy (api : Nat → ApiAttempt) (fuel : Nat) :
    (api 0 = .err 500 →
      kubeCall defaultCodes api (fuel + 1) = callAux defaultCodes api fuel 1) ∧
    (∀ codes s, api 0 = .err s → codesGet codes s = some "ignore" →
      kubeCall codes api (fuel + 1) = some (.ok (.obj []))) ∧
    (∀ codes s, api 0 = .err s → codesGet codes s = none →
      kubeCall codes api (fuel + 1) = some (.error s)) ∧
    (∀ codes v, api 0 = .ok v →
      kubeCall codes api (fuel + 1) = some (.ok v)) := by
  refine ⟨?_, ?_, ?_, ?_⟩
  · intro h500
    unfold kubeCall
    conv_lhs => rw [callAux]
    simp only [h500]
    simp [codesGet, defaultCodes]
  · intro codes s herr hig
    unfold kubeCall
    conv_lhs => rw [callAux]
    simp only [herr]
    simp [hig]
  · intro codes s herr hnone
    unfold kubeCall
    conv_lhs => rw [callAux]
    simp only [herr]
    simp [hnone]
  · intro codes v hok
    unfold kubeCall
    conv_lhs => rw [callAux]
    simp only [hok]

/-- Witness for C9: a first-attempt 500 is retried and the second attempt's
object is returned; an ignored 404 yields the empty object; an unmapped 403
propagates; a direct success returns the object. -/
theorem kubeCall_policy_witness :
    kubeCall defaultCodes
      (fun k => if k = 0 then .err 500 else .ok (.s "deployment-list")) 2 =
      some (.ok (.s "deployment-list")) ∧
    kubeCall [(404, "ignore")] (fun _ => .err 404) 1 = some (.ok (.obj [])) ∧
    kubeCall defaultCodes (fun _ => .err 403) 1 = some (.error 403) ∧
    kubeCall defaultCodes (fun _ => .ok (.s "pod")) 1 = some (.ok (.s "pod")) := by
  refine ⟨?_, ?_, ?_, ?_⟩
  · rw [(kubeCall_policy
        (fun k => if k = 0 then .err 500 else .ok (.s "deployment-list")) 1).1 rfl]
    rfl
  · exact (kubeCall_policy (fun _ => .err 404) 0).2.1 [(404, "ignore")] 404 rfl rfl
  · exact (kubeCall_policy (fun _ => .err 403) 0).2.2.1 defaultCodes 403 rfl rfl
  · exact (kubeCall_policy (fun _ => .ok (.s "pod")) 0).2.2.2 defaultCodes
      (.s "pod") rfl

end OcsMonkey
